import Mathlib

/-!
Shallow embedding of `src/app.py` (a Slack `/fare` slash-command bot):
the command parser, the Mapbox geocoding wrapper, the Uber/Lyft deep-link
builders and the `/fare` handler, together with theorems about them.

Strings are modelled as Lean `String` (a list of characters); the outcome of
the one outbound HTTP call (`requests.get` to Mapbox) is abstracted as an
explicit `MapboxHttp` value supplied by the environment; Python exceptions
are modelled with `Except`.
-/

set_option autoImplicit false

namespace FareBot

/-- Whitespace class stripped by Python `str.strip()` (the ASCII part;
both Python's and this class contain the space character, which is all the
proofs below use). -/
def pyIsSpace (c : Char) : Bool :=
  c = ' ' || c = '\t' || c = '\n' || c = '\r' || c = '\x0b' || c = '\x0c'

/-- Python `str.strip()` on a character list: drop leading and trailing
whitespace. -/
def stripList (l : List Char) : List Char :=
  ((l.dropWhile pyIsSpace).reverse.dropWhile pyIsSpace).reverse

/-- Python `str.strip()`. -/
def pyStrip (s : String) : String := ⟨stripList s.data⟩

/-- The delimiter `" to "` of `text.split(" to ", 1)` in `handle_fare`. -/
def sepToList : List Char := [' ', 't', 'o', ' ']

/-- Split a list at the first occurrence of `sep` (Python
`text.split(sep, 1)` restricted to the case where `sep` occurs): returns
the part before and the part after the first occurrence, or `none` when
`sep` does not occur (Python `sep not in text`). -/
def splitFirstAux (sep : List Char) : List Char → Option (List Char × List Char)
  | [] => none
  | c :: rest =>
    if sep.isPrefixOf (c :: rest) then some ([], (c :: rest).drop sep.length)
    else
      match splitFirstAux sep rest with
      | some (pre, post) => some (c :: pre, post)
      | none => none

/-- Python `" to " in text`. -/
def containsToDelim (l : List Char) : Bool := (splitFirstAux sepToList l).isSome

/-- Outcome of parsing the `/fare` command text (lines 130-149 of
`src/app.py`). -/
inductive ParseResult where
  | malformed
  | missingEndpoint
  | ok (pickup dropoff : String)
deriving DecidableEq

/-- The parsing portion of `handle_fare`:
`text = (command.get("text") or "").strip()`, the `" to " not in text`
check, `text.split(" to ", 1)` and the per-part strips with the empty-part
check. -/
def parseCommand (commandText : Option String) : ParseResult :=
  match splitFirstAux sepToList (stripList (commandText.getD "").data) with
  | none => .malformed
  | some (a, b) =>
    if stripList a = [] ∨ stripList b = [] then .missingEndpoint
    else .ok ⟨stripList a⟩ ⟨stripList b⟩

/-- A resolved coordinate pair. The Python code stores the two floats of
Mapbox's `center` field; here each is carried as its decimal rendering
(the string `str()` would produce), since no arithmetic is ever done on
them. -/
structure Coords where
  lat : String
  lng : String
deriving DecidableEq

/-- One element of Mapbox's `features` array: its `center` field
(`none` when the key is missing, otherwise the JSON array rendered as a
list of number strings). -/
structure Feature where
  center : Option (List String)
deriving DecidableEq

/-- Body of a Mapbox HTTP response: either not parseable as JSON
(`resp.json()` raises), or a JSON object whose `features` key is absent
(`none`) or a list. -/
inductive MapboxBody where
  | notJson
  | json (features : Option (List Feature))
deriving DecidableEq

/-- Outcome of `requests.get` for one address: the call raised (timeout,
network error), or returned a response with an `ok` flag
(`resp.ok`, status < 400) and a body. -/
inductive MapboxHttp where
  | raises
  | status (ok : Bool) (body : MapboxBody)
deriving DecidableEq

/-- `geocode_with_mapbox` (lines 27-62 of `src/app.py`). `token?` is
`MAPBOX_TOKEN` (`none` when unset or empty, i.e. falsy); `http` is the
outcome of the `requests.get` call. `.error ()` models an uncaught Python
exception propagating out of the function; `.ok none` models `return None`. -/
def geocode_with_mapbox (token? : Option String) (http : MapboxHttp) :
    Except Unit (Option Coords) :=
  match token? with
  | none => .ok none
  | some _ =>
    match http with
    | .raises => .ok none
    | .status ok body =>
      if !ok then .ok none
      else
        match body with
        | .notJson => .error ()
        | .json features? =>
          match features? with
          | none => .ok none
          | some [] => .ok none
          | some (f :: _) =>
            match f.center with
            | none => .error ()
            | some [lng, lat] => .ok (some ⟨lat, lng⟩)
            | some _ => .error ()

/-- The characters `urllib.parse.quote` never encodes
(letters, digits, `_.-~`; `urlencode` passes `safe=''`). -/
def alwaysSafe (c : Char) : Bool :=
  ('a' ≤ c && c ≤ 'z') || ('A' ≤ c && c ≤ 'Z') || ('0' ≤ c && c ≤ '9') ||
    c = '_' || c = '.' || c = '-' || c = '~'

/-- Upper-case hexadecimal digit for a value below 16. -/
def hexDigit (n : Nat) : Char :=
  if n < 10 then Char.ofNat (48 + n) else Char.ofNat (55 + n)

/-- UTF-8 encoding of one character, as byte values. -/
def utf8Bytes (c : Char) : List Nat :=
  if c.toNat < 128 then [c.toNat]
  else if c.toNat < 2048 then [192 + c.toNat / 64, 128 + c.toNat % 64]
  else if c.toNat < 65536 then
    [224 + c.toNat / 4096, 128 + (c.toNat / 64) % 64, 128 + c.toNat % 64]
  else
    [240 + c.toNat / 262144, 128 + (c.toNat / 4096) % 64, 128 + (c.toNat / 64) % 64,
     128 + c.toNat % 64]

/-- Percent-escape of one byte: `%XX` with upper-case hex digits. -/
def pctByte (b : Nat) : List Char := ['%', hexDigit (b / 16), hexDigit (b % 16)]

/-- `urllib.parse.quote_plus` on one character: safe characters pass
through, a space becomes `+`, everything else is percent-encoded per
UTF-8 byte. -/
def quotePlusChar (c : Char) : List Char :=
  if alwaysSafe c then [c]
  else if c = ' ' then ['+']
  else ((utf8Bytes c).map pctByte).flatten

/-- `urllib.parse.quote_plus`. -/
def quotePlus (s : String) : String := ⟨(s.data.map quotePlusChar).flatten⟩

/-- Value of a hexadecimal digit character, if it is one. -/
def hexVal (c : Char) : Option Nat :=
  if '0' ≤ c ∧ c ≤ '9' then some (c.toNat - 48)
  else if 'A' ≤ c ∧ c ≤ 'F' then some (c.toNat - 55)
  else if 'a' ≤ c ∧ c ≤ 'f' then some (c.toNat - 87)
  else none

/-- First phase of `urllib.parse.unquote_plus`: turn the quoted text into
a byte sequence (`+` is a space, `%XX` is a byte, anything else passes
through as its own UTF-8 bytes; a `%` not followed by two hex digits stays
literal, as in Python). -/
def unquoteBytes : List Char → List Nat
  | [] => []
  | c :: h1 :: h2 :: rest2 =>
    if c = '+' then 32 :: unquoteBytes (h1 :: h2 :: rest2)
    else if c = '%' then
      match hexVal h1, hexVal h2 with
      | some a, some b => (16 * a + b) :: unquoteBytes rest2
      | _, _ => c.toNat :: unquoteBytes (h1 :: h2 :: rest2)
    else utf8Bytes c ++ unquoteBytes (h1 :: h2 :: rest2)
  | c :: rest =>
    if c = '+' then 32 :: unquoteBytes rest
    else utf8Bytes c ++ unquoteBytes rest

/-- One step of UTF-8 decoding: from a lead byte and the remaining bytes,
the decoded character and the bytes left over (lenient on byte sequences a
valid encoder never produces; malformed tails decode to U+FFFD as with
Python's `errors="replace"`). -/
def utf8DecodeStep (b : Nat) (rest : List Nat) : Char × List Nat :=
  if b < 128 then (Char.ofNat b, rest)
  else if b < 224 then
    match rest with
    | b2 :: rest2 => (Char.ofNat ((b - 192) * 64 + (b2 - 128)), rest2)
    | [] => (Char.ofNat 65533, [])
  else if b < 240 then
    match rest with
    | b2 :: b3 :: rest3 =>
      (Char.ofNat ((b - 224) * 4096 + (b2 - 128) * 64 + (b3 - 128)), rest3)
    | _ => (Char.ofNat 65533, [])
  else
    match rest with
    | b2 :: b3 :: b4 :: rest4 =>
      (Char.ofNat ((b - 240) * 262144 + (b2 - 128) * 4096 + (b3 - 128) * 64 + (b4 - 128)),
        rest4)
    | _ => (Char.ofNat 65533, [])

theorem utf8DecodeStep_le (b : Nat) (rest : List Nat) :
    (utf8DecodeStep b rest).2.length ≤ rest.length := by
  unfold utf8DecodeStep
  by_cases h1 : b < 128
  · simp [h1]
  · by_cases h2 : b < 224
    · rw [if_neg h1, if_pos h2]
      cases rest with
      | nil => simp
      | cons b2 r2 => simp
    · by_cases h3 : b < 240
      · rw [if_neg h1, if_neg h2, if_pos h3]
        cases rest with
        | nil => simp
        | cons b2 r2 =>
          cases r2 with
          | nil => simp
          | cons b3 r3 => simp; omega
      · rw [if_neg h1, if_neg h2, if_neg h3]
        cases rest with
        | nil => simp
        | cons b2 r2 =>
          cases r2 with
          | nil => simp
          | cons b3 r3 =>
            cases r3 with
            | nil => simp
            | cons b4 r4 => simp; omega

/-- Second phase of percent-decoding: UTF-8 decode the byte sequence. -/
def utf8Decode : List Nat → List Char
  | [] => []
  | b :: rest =>
    (utf8DecodeStep b rest).1 :: utf8Decode (utf8DecodeStep b rest).2
termination_by l => l.length
decreasing_by
  simp only [List.length_cons]
  exact Nat.lt_succ_of_le (utf8DecodeStep_le b rest)

/-- `urllib.parse.unquote_plus`. -/
def unquotePlus (s : String) : String := ⟨utf8Decode (unquoteBytes s.data)⟩

/-- `urllib.parse.urlencode` on an ordered key/value list (Python dicts
preserve insertion order): `quote_plus` each key and value, join with
`=` and `&`. -/
def urlencode (ps : List (String × String)) : String :=
  String.intercalate "&" (ps.map fun kv => quotePlus kv.1 ++ "=" ++ quotePlus kv.2)

/-- The ordered parameter list built by `make_uber_link`
(lines 66-92 of `src/app.py`). -/
def uberParams (clientId pickupAddress dropoffAddress : String)
    (pickupCoords dropoffCoords : Option Coords) : List (String × String) :=
  [("action", "setPickup"), ("client_id", clientId)]
  ++ (match pickupCoords with
      | some c =>
        [("pickup[latitude]", c.lat), ("pickup[longitude]", c.lng),
         ("pickup[formatted_address]", pickupAddress)]
      | none => [("pickup[formatted_address]", pickupAddress)])
  ++ (match dropoffCoords with
      | some c =>
        [("dropoff[latitude]", c.lat), ("dropoff[longitude]", c.lng),
         ("dropoff[formatted_address]", dropoffAddress)]
      | none => [("dropoff[formatted_address]", dropoffAddress)])

/-- `make_uber_link`. -/
def make_uber_link (clientId pickupAddress dropoffAddress : String)
    (pickupCoords dropoffCoords : Option Coords) : String :=
  "https://m.uber.com/ul/?" ++
    urlencode (uberParams clientId pickupAddress dropoffAddress pickupCoords dropoffCoords)

/-- The ordered parameter list built by `make_lyft_link`
(lines 95-116 of `src/app.py`). -/
def lyftParams (pickupAddress dropoffAddress : String)
    (pickupCoords dropoffCoords : Option Coords) : List (String × String) :=
  [("id", "lyft")]
  ++ (match pickupCoords with
      | some c => [("pickup[latitude]", c.lat), ("pickup[longitude]", c.lng)]
      | none => [])
  ++ [("pickup[address]", pickupAddress)]
  ++ (match dropoffCoords with
      | some c => [("destination[latitude]", c.lat), ("destination[longitude]", c.lng)]
      | none => [])
  ++ [("destination[address]", dropoffAddress)]

/-- `make_lyft_link`. -/
def make_lyft_link (pickupAddress dropoffAddress : String)
    (pickupCoords dropoffCoords : Option Coords) : String :=
  "lyft://ridetype?" ++
    urlencode (lyftParams pickupAddress dropoffAddress pickupCoords dropoffCoords)

/-- `response_type` of a Slack reply. -/
inductive ReplyType where
  | ephemeral
  | in_channel
deriving DecidableEq

/-- A reply sent through `respond`: either a plain text message, or the
success block message (modelled by the data that varies in it: the two
trimmed addresses and the two deep links). -/
inductive Reply where
  | message (rtype : ReplyType) (text : String)
  | blocksMsg (rtype : ReplyType) (pickup dropoff uberUrl lyftUrl : String)
deriving DecidableEq

/-- The malformed-command guidance text of `handle_fare` (line 136). -/
def fmtGuidance : String := "Format: `/fare pickup address to dropoff address`"

/-- The missing-endpoint guidance text of `handle_fare` (line 147). -/
def missingGuidance : String := "I need both a pickup and a dropoff address."

/-- The generic apology of the outer `except` clause (line 221). -/
def apology : String := "Sorry, something went wrong handling that request."

/-- Body of the `try` block of `handle_fare` (lines 129-216): parse, the
two geocoding calls in order (pickup first), link building and the reply.
`.error ()` models an exception escaping the `try` body. `http` gives the
HTTP outcome the environment holds in store for each address. -/
def handle_fare_core (token? : Option String) (clientId : String)
    (http : String → MapboxHttp) (commandText : Option String) : Except Unit Reply :=
  match parseCommand commandText with
  | .malformed => .ok (.message .ephemeral fmtGuidance)
  | .missingEndpoint => .ok (.message .ephemeral missingGuidance)
  | .ok pickup dropoff => do
    let pickupCoords ← geocode_with_mapbox token? (http pickup)
    let dropoffCoords ← geocode_with_mapbox token? (http dropoff)
    .ok (.blocksMsg .in_channel pickup dropoff
      (make_uber_link clientId pickup dropoff pickupCoords dropoffCoords)
      (make_lyft_link pickup dropoff pickupCoords dropoffCoords))

/-- `handle_fare` (lines 120-222): the `try` body with the outer
`except Exception` clause that converts any escaped exception into the
ephemeral apology. (`ack()` is an acknowledgment side effect with no data,
not modelled.) -/
def handle_fare (token? : Option String) (clientId : String)
    (http : String → MapboxHttp) (commandText : Option String) : Reply :=
  match handle_fare_core token? clientId http commandText with
  | .ok r => r
  | .error _ => .message .ephemeral apology

/-- Does a `ParseResult` signal a missing endpoint? -/
def isMissingEndpoint : ParseResult → Bool
  | .missingEndpoint => true
  | _ => false

/-- Is a reply the missing-endpoint guidance message? -/
def isMissingReply : Reply → Bool
  | .message _ t => t == missingGuidance
  | _ => false

/-- Does this geocoding-environment pair describe an ordinary lookup
failure (missing credential, network error or timeout, non-success HTTP
status, missing or empty `features`)? -/
def isGeoFailure (token? : Option String) (h : MapboxHttp) : Bool :=
  match token? with
  | none => true
  | some _ =>
    match h with
    | .raises => true
    | .status false _ => true
    | .status true .notJson => false
    | .status true (.json none) => true
    | .status true (.json (some [])) => true
    | .status true (.json (some (_ :: _))) => false

/-! ### List helper lemmas -/

theorem head_dropWhile_false (p : Char → Bool) :
    ∀ (l : List Char) (c : Char), (l.dropWhile p).head? = some c → p c = false := by
  intro l
  induction l with
  | nil => intro c h; simp [List.dropWhile] at h
  | cons a t ih =>
    intro c h
    rw [List.dropWhile_cons] at h
    by_cases hpa : p a
    · exact ih c (by simpa [hpa] using h)
    · simp [hpa] at h
      subst h
      simpa using hpa

theorem getLast_cons_of_ne_nil (a : Char) (t : List Char) (h : t ≠ []) :
    (a :: t).getLast? = t.getLast? := by
  cases t with
  | nil => exact absurd rfl h
  | cons b u => rfl

theorem getLast_dropWhile (p : Char → Bool) :
    ∀ (l : List Char) (c : Char), (l.dropWhile p).getLast? = some c → l.getLast? = some c := by
  intro l
  induction l with
  | nil => intro c h; simp [List.dropWhile] at h
  | cons a t ih =>
    intro c h
    rw [List.dropWhile_cons] at h
    by_cases hpa : p a
    · rw [if_pos hpa] at h
      have ht : t ≠ [] := by
        intro hnil
        rw [hnil] at h
        simp [List.dropWhile] at h
      rw [getLast_cons_of_ne_nil a t ht]
      exact ih c h
    · rw [if_neg hpa] at h
      exact h

theorem getLast_append_ne (u v : List Char) (hv : v ≠ []) :
    (u ++ v).getLast? = v.getLast? := by
  induction u with
  | nil => rfl
  | cons x u' ih =>
    have hne : u' ++ v ≠ [] := by
      intro hnil
      exact hv (List.append_eq_nil.mp hnil).2
    rw [List.cons_append, getLast_cons_of_ne_nil x (u' ++ v) hne, ih]

theorem mem_of_getLast_eq (l : List Char) (c : Char) (h : l.getLast? = some c) : c ∈ l := by
  induction l with
  | nil => simp at h
  | cons a t ih =>
    cases t with
    | nil =>
      simp [List.getLast?] at h
      simp [h]
    | cons b u =>
      rw [getLast_cons_of_ne_nil a (b :: u) (by simp)] at h
      exact List.mem_cons_of_mem a (ih h)

theorem exists_getLast_of_ne_nil (l : List Char) (h : l ≠ []) :
    ∃ c, l.getLast? = some c := by
  induction l with
  | nil => exact absurd rfl h
  | cons a t ih =>
    cases t with
    | nil => exact ⟨a, rfl⟩
    | cons b u =>
      obtain ⟨c, hc⟩ := ih (by simp)
      exact ⟨c, by rw [getLast_cons_of_ne_nil a (b :: u) (by simp), hc]⟩

/-! ### Strip lemmas -/

theorem strip_head_not_space (l : List Char) (c : Char)
    (h : (stripList l).head? = some c) : pyIsSpace c = false := by
  unfold stripList at h
  rw [List.head?_reverse] at h
  have := getLast_dropWhile pyIsSpace _ _ h
  rw [List.getLast?_reverse] at this
  exact head_dropWhile_false pyIsSpace _ _ this

theorem strip_getLast_not_space (l : List Char) (c : Char)
    (h : (stripList l).getLast? = some c) : pyIsSpace c = false := by
  unfold stripList at h
  rw [List.getLast?_reverse] at h
  exact head_dropWhile_false pyIsSpace _ _ h

theorem mem_dropWhile_of_mem (p : Char → Bool) :
    ∀ (l : List Char) (c : Char), c ∈ l → p c = false →
      ∃ x ∈ l.dropWhile p, p x = false := by
  intro l
  induction l with
  | nil => intro c hc; simp at hc
  | cons a t ih =>
    intro c hc hpc
    rw [List.dropWhile_cons]
    by_cases hpa : p a
    · rw [if_pos hpa]
      rcases List.mem_cons.mp hc with rfl | hct
      · rw [hpc] at hpa; cases hpa
      · exact ih c hct hpc
    · exact ⟨a, by rw [if_neg hpa]; exact List.mem_cons_self a t, by simpa using hpa⟩

theorem strip_ne_nil_of_mem (l : List Char) (c : Char)
    (hc : c ∈ l) (hpc : pyIsSpace c = false) : stripList l ≠ [] := by
  intro hnil
  unfold stripList at hnil
  rw [List.reverse_eq_nil_iff, List.dropWhile_eq_nil_iff] at hnil
  obtain ⟨x, hx, hpx⟩ := mem_dropWhile_of_mem pyIsSpace l c hc hpc
  have := hnil x (List.mem_reverse.mpr hx)
  rw [hpx] at this
  cases this

/-! ### Split lemmas -/

theorem splitFirstAux_eq (sep : List Char) :
    ∀ (l a b : List Char), splitFirstAux sep l = some (a, b) → l = a ++ sep ++ b := by
  intro l
  induction l with
  | nil => intro a b h; simp [splitFirstAux] at h
  | cons c t ih =>
    intro a b h
    rw [splitFirstAux] at h
    by_cases hp : sep.isPrefixOf (c :: t)
    · rw [if_pos hp] at h
      obtain ⟨u, hu⟩ := List.isPrefixOf_iff_prefix.mp hp
      simp only [Option.some.injEq, Prod.mk.injEq] at h
      obtain ⟨rfl, rfl⟩ := h
      rw [← hu, List.drop_left, List.nil_append]
    · rw [if_neg hp] at h
      cases hsp : splitFirstAux sep t with
      | none => rw [hsp] at h; simp at h
      | some pr =>
        obtain ⟨pre, post⟩ := pr
        rw [hsp] at h
        simp only [Option.some.injEq, Prod.mk.injEq] at h
        obtain ⟨rfl, rfl⟩ := h
        have := ih pre post hsp
        rw [List.cons_append, List.cons_append, ← this]

theorem splitFirstAux_min (sep : List Char) :
    ∀ (l a b : List Char), splitFirstAux sep l = some (a, b) →
      ∀ a' b', l = a' ++ sep ++ b' → a.length ≤ a'.length := by
  intro l
  induction l with
  | nil => intro a b h; simp [splitFirstAux] at h
  | cons c t ih =>
    intro a b h a' b' hdec
    rw [splitFirstAux] at h
    by_cases hp : sep.isPrefixOf (c :: t)
    · rw [if_pos hp] at h
      simp only [Option.some.injEq, Prod.mk.injEq] at h
      obtain ⟨rfl, rfl⟩ := h
      exact Nat.zero_le _
    · rw [if_neg hp] at h
      cases hsp : splitFirstAux sep t with
      | none => rw [hsp] at h; simp at h
      | some pr =>
        obtain ⟨pre, post⟩ := pr
        rw [hsp] at h
        simp only [Option.some.injEq, Prod.mk.injEq] at h
        obtain ⟨rfl, rfl⟩ := h
        cases a' with
        | nil =>
          exfalso
          apply hp
          apply List.isPrefixOf_iff_prefix.mpr
          exact ⟨b', by rw [hdec, List.nil_append]⟩
        | cons c' a'' =>
          rw [List.cons_append, List.cons_append] at hdec
          injection hdec with hc ht
          simp only [List.length_cons, Nat.succ_le_succ_iff]
          exact ih pre post hsp a'' b' (by rw [ht, List.append_assoc])

theorem splitFirstAux_isSome (sep : List Char) (hsep : sep ≠ []) :
    ∀ (a b : List Char), (splitFirstAux sep (a ++ sep ++ b)).isSome = true := by
  intro a
  induction a with
  | nil =>
    intro b
    cases hs : sep with
    | nil => exact absurd hs hsep
    | cons s ss =>
      subst hs
      rw [List.nil_append]
      have hpre : (s :: ss).isPrefixOf ((s :: ss) ++ b) = true :=
        List.isPrefixOf_iff_prefix.mpr ⟨b, rfl⟩
      rw [List.cons_append] at hpre ⊢
      rw [splitFirstAux, if_pos hpre]
      rfl
  | cons c a' ih =>
    intro b
    rw [List.cons_append, List.cons_append, splitFirstAux]
    by_cases hp : sep.isPrefixOf (c :: (a' ++ sep ++ b))
    · rw [if_pos hp]; rfl
    · rw [if_neg hp]
      have := ih b
      cases hsp : splitFirstAux sep (a' ++ sep ++ b) with
      | none => rw [hsp] at this; simp at this
      | some pr => obtain ⟨pre, post⟩ := pr; rfl

/-- Python `" to " in text` agrees with the substring decomposition
semantics. -/
theorem containsToDelim_iff (l : List Char) :
    containsToDelim l = true ↔ ∃ a b, l = a ++ sepToList ++ b := by
  constructor
  · intro h
    unfold containsToDelim at h
    cases hsp : splitFirstAux sepToList l with
    | none => rw [hsp] at h; simp at h
    | some pr =>
      obtain ⟨a, b⟩ := pr
      exact ⟨a, b, splitFirstAux_eq sepToList l a b hsp⟩
  · rintro ⟨a, b, rfl⟩
    exact splitFirstAux_isSome sepToList (by simp [sepToList]) a b

/-! ### Parse characterization -/

/-- When the stripped command text splits at `" to "`, both parts are
non-empty after their own strip: the stripped text begins and ends with a
non-whitespace character, and the delimiter begins and ends with a space. -/
theorem split_strip_parts (l a b : List Char)
    (h : splitFirstAux sepToList (stripList l) = some (a, b)) :
    stripList a ≠ [] ∧ stripList b ≠ [] := by
  have hdec := splitFirstAux_eq sepToList (stripList l) a b h
  constructor
  · cases a with
    | nil =>
      exfalso
      have hh : (stripList l).head? = some ' ' := by
        rw [hdec]; rfl
      have := strip_head_not_space l ' ' hh
      simp [pyIsSpace] at this
    | cons c a'' =>
      have hh : (stripList l).head? = some c := by
        rw [hdec]; rfl
      have hc := strip_head_not_space l c hh
      exact strip_ne_nil_of_mem (c :: a'') c (List.mem_cons_self c a'') hc
  · cases hb : b with
    | nil =>
      exfalso
      rw [hb] at hdec
      have hh : (stripList l).getLast? = some ' ' := by
        rw [hdec, List.append_nil, getLast_append_ne a sepToList (by simp [sepToList])]
        rfl
      have := strip_getLast_not_space l ' ' hh
      simp [pyIsSpace] at this
    | cons d b'' =>
      rw [← hb]
      have hbne : b ≠ [] := by rw [hb]; simp
      obtain ⟨c, hc⟩ := exists_getLast_of_ne_nil b hbne
      have hh : (stripList l).getLast? = some c := by
        rw [hdec, getLast_append_ne (a ++ sepToList) b hbne, hc]
      have hcs := strip_getLast_not_space l c hh
      exact strip_ne_nil_of_mem b c (mem_of_getLast_eq b c hc) hcs

/-- Full case analysis of `parseCommand`: either the stripped text lacks
`" to "` and the result is `malformed`, or it splits and the result is
`ok` with the two stripped non-empty parts. `missingEndpoint` never
occurs. -/
theorem parseCommand_cases (txt : Option String) :
    (splitFirstAux sepToList (stripList (txt.getD "").data) = none ∧
      parseCommand txt = .malformed) ∨
    (∃ a b, splitFirstAux sepToList (stripList (txt.getD "").data) = some (a, b) ∧
      stripList a ≠ [] ∧ stripList b ≠ [] ∧
      parseCommand txt = .ok ⟨stripList a⟩ ⟨stripList b⟩) := by
  cases hsp : splitFirstAux sepToList (stripList (txt.getD "").data) with
  | none =>
    left
    refine ⟨rfl, ?_⟩
    unfold parseCommand
    rw [hsp]
  | some pr =>
    obtain ⟨a, b⟩ := pr
    right
    obtain ⟨ha, hb⟩ := split_strip_parts (txt.getD "").data a b hsp
    refine ⟨a, b, rfl, ha, hb, ?_⟩
    unfold parseCommand
    simp only [hsp]
    rw [if_neg (by simp [ha, hb])]

/-- `parseCommand` never yields `missingEndpoint`. -/
theorem parseCommand_not_missing (txt : Option String) :
    isMissingEndpoint (parseCommand txt) = false := by
  rcases parseCommand_cases txt with ⟨_, hm⟩ | ⟨a, b, _, _, _, hok⟩
  · rw [hm]; rfl
  · rw [hok]; rfl

/-- Full case analysis of `handle_fare`: the reply is the malformed
guidance, the apology (an exception escaped the `try` body), or the
success block message built from the parse result and the two geocoding
results. -/
theorem handle_fare_cases (token? : Option String) (clientId : String)
    (http : String → MapboxHttp) (txt : Option String) :
    (parseCommand txt = .malformed ∧
      handle_fare token? clientId http txt = .message .ephemeral fmtGuidance) ∨
    (∃ p d, parseCommand txt = .ok p d ∧
      handle_fare token? clientId http txt = .message .ephemeral apology ∧
      (geocode_with_mapbox token? (http p) = .error () ∨
        geocode_with_mapbox token? (http d) = .error ())) ∨
    (∃ p d pc dc, parseCommand txt = .ok p d ∧
      geocode_with_mapbox token? (http p) = .ok pc ∧
      geocode_with_mapbox token? (http d) = .ok dc ∧
      handle_fare token? clientId http txt =
        .blocksMsg .in_channel p d (make_uber_link clientId p d pc dc)
          (make_lyft_link p d pc dc)) := by
  rcases parseCommand_cases txt with ⟨_, hm⟩ | ⟨a, b, _, _, _, hok⟩
  · left
    refine ⟨hm, ?_⟩
    unfold handle_fare handle_fare_core
    rw [hm]
  · cases hgp : geocode_with_mapbox token? (http ⟨stripList a⟩) with
    | error e =>
      cases e
      right; left
      refine ⟨⟨stripList a⟩, ⟨stripList b⟩, hok, ?_, Or.inl hgp⟩
      unfold handle_fare handle_fare_core
      simp only [hok, hgp]
      rfl
    | ok pc =>
      cases hgd : geocode_with_mapbox token? (http ⟨stripList b⟩) with
      | error e =>
        cases e
        right; left
        refine ⟨⟨stripList a⟩, ⟨stripList b⟩, hok, ?_, Or.inr hgd⟩
        unfold handle_fare handle_fare_core
        simp only [hok, hgp, hgd]
        rfl
      | ok dc =>
        right; right
        refine ⟨⟨stripList a⟩, ⟨stripList b⟩, pc, dc, hok, hgp, hgd, ?_⟩
        unfold handle_fare handle_fare_core
        simp only [hok, hgp, hgd]
        rfl

/-- The missing-endpoint guidance is never sent, whatever the input and
the geocoding environment. -/
theorem handle_fare_not_missing (token? : Option String) (clientId : String)
    (http : String → MapboxHttp) (txt : Option String) :
    isMissingReply (handle_fare token? clientId http txt) = false := by
  rcases handle_fare_cases token? clientId http txt with
    ⟨_, hr⟩ | ⟨p, d, _, hr, _⟩ | ⟨p, d, pc, dc, _, _, _, hr⟩
  · simp only [hr]; decide
  · simp only [hr]; decide
  · simp only [hr]; rfl

/-! ### Claim C1 -/

/-- C1 counterexample: for the input `"  to  "` the code trims the whole
text before the delimiter check, so the trimmed text `"to"` lacks `" to "`
and parsing yields MalformedCommand — not MissingEndpoint — and the
handler replies with the format guidance, not the missing-endpoint
guidance. -/
theorem blank_endpoints_counterexample :
    parseCommand (some "  to  ") = .malformed ∧
    isMissingReply (handle_fare none "fare-bot" (fun _ => MapboxHttp.raises) (some "  to  "))
      = false ∧
    handle_fare none "fare-bot" (fun _ => MapboxHttp.raises) (some "  to  ")
      = .message .ephemeral fmtGuidance := by
  refine ⟨by decide, by decide, by decide⟩

/-- C1 (amended): for the input `"  to  "` the handler signals
MalformedCommand with the format guidance (the text is trimmed before the
delimiter check, so no input reaches the MissingEndpoint branch), and the
MissingEndpoint guidance `"I need both a pickup and a dropoff address."`
is never sent for any input. -/
theorem blank_endpoints_malformed (token? : Option String) (clientId : String)
    (http : String → MapboxHttp) :
    handle_fare token? clientId http (some "  to  ") = .message .ephemeral fmtGuidance ∧
    parseCommand (some "  to  ") = .malformed ∧
    ∀ txt, isMissingReply (handle_fare token? clientId http txt) = false := by
  have hm : parseCommand (some "  to  ") = .malformed := by decide
  refine ⟨?_, hm, fun txt => handle_fare_not_missing token? clientId http txt⟩
  unfold handle_fare handle_fare_core
  simp only [hm]

/-! ### Claim C2 -/

/-- C2: the MissingEndpoint reply branch of `handle_fare` is unreachable:
parsing never yields `missingEndpoint`, the handler never sends the
missing-endpoint message, and whenever geocoding does not raise, every
input yields either the MalformedCommand guidance or the successful
links reply. -/
theorem missing_endpoint_unreachable (token? : Option String) (clientId : String)
    (http : String → MapboxHttp) (txt : Option String) :
    isMissingEndpoint (parseCommand txt) = false ∧
    isMissingReply (handle_fare token? clientId http txt) = false ∧
    ((∀ s, geocode_with_mapbox token? (http s) ≠ .error ()) →
      handle_fare token? clientId http txt = .message .ephemeral fmtGuidance ∨
      ∃ p d pc dc, parseCommand txt = .ok p d ∧
        handle_fare token? clientId http txt =
          .blocksMsg .in_channel p d (make_uber_link clientId p d pc dc)
            (make_lyft_link p d pc dc)) := by
  refine ⟨parseCommand_not_missing txt, handle_fare_not_missing token? clientId http txt, ?_⟩
  intro hnr
  rcases handle_fare_cases token? clientId http txt with
    ⟨_, hr⟩ | ⟨p, d, _, _, herr⟩ | ⟨p, d, pc, dc, hok, _, _, hr⟩
  · exact Or.inl hr
  · rcases herr with h | h
    · exact absurd h (hnr _)
    · exact absurd h (hnr _)
  · exact Or.inr ⟨p, d, pc, dc, hok, hr⟩

/-- Witness for C2 at a concrete input and non-raising environment. -/
theorem missing_endpoint_unreachable_wit :
    handle_fare none "fare-bot" (fun _ => MapboxHttp.raises) (some "45 2nd St to SFO") =
      .message .ephemeral fmtGuidance ∨
    ∃ p d pc dc, parseCommand (some "45 2nd St to SFO") = .ok p d ∧
      handle_fare none "fare-bot" (fun _ => MapboxHttp.raises) (some "45 2nd St to SFO") =
        .blocksMsg .in_channel p d (make_uber_link "fare-bot" p d pc dc)
          (make_lyft_link p d pc dc) :=
  (missing_endpoint_unreachable none "fare-bot" (fun _ => MapboxHttp.raises)
    (some "45 2nd St to SFO")).2.2
    (fun s h => by simp [geocode_with_mapbox] at h)

/-! ### Claim C5 -/

/-- C5: for every input whose trimmed text contains `" to "`, parsing
splits at the first occurrence only (no decomposition puts the delimiter
earlier) and trims both parts; in particular `"A to B to C"` parses to
pickup `"A"` and dropoff `"B to C"`. -/
theorem split_first_occurrence (raw : String) (a b : List Char)
    (h : splitFirstAux sepToList (stripList raw.data) = some (a, b)) :
    parseCommand (some raw) = .ok ⟨stripList a⟩ ⟨stripList b⟩ ∧
    stripList raw.data = a ++ sepToList ++ b ∧
    (∀ a' b', stripList raw.data = a' ++ sepToList ++ b' → a.length ≤ a'.length) ∧
    parseCommand (some "A to B to C") = .ok "A" "B to C" := by
  refine ⟨?_, splitFirstAux_eq sepToList _ a b h, splitFirstAux_min sepToList _ a b h, by decide⟩
  rcases parseCommand_cases (some raw) with ⟨hn, _⟩ | ⟨a2, b2, hsp, _, _, hok⟩
  · simp only [Option.getD_some] at hn
    rw [h] at hn
    cases hn
  · simp only [Option.getD_some] at hsp
    rw [h] at hsp
    simp only [Option.some.injEq, Prod.mk.injEq] at hsp
    obtain ⟨rfl, rfl⟩ := hsp
    exact hok

/-- Witness for C5 at the spec's example input. -/
theorem split_first_occurrence_wit :
    parseCommand (some "A to B to C") =
      .ok ⟨stripList ['A']⟩ ⟨stripList ['B', ' ', 't', 'o', ' ', 'C']⟩ :=
  (split_first_occurrence "A to B to C" ['A'] ['B', ' ', 't', 'o', ' ', 'C'] (by decide)).1

/-! ### Claim C6 -/

/-- C6 counterexample: at the input `"hello"` (no delimiter) the handler
does reply with the malformed-command guidance, but that guidance wraps
the format in backticks, so it is not exactly
`"Format: /fare pickup address to dropoff address"`. -/
theorem malformed_guidance_counterexample :
    handle_fare none "fare-bot" (fun _ => MapboxHttp.raises) (some "hello") =
      .message .ephemeral fmtGuidance ∧
    (fmtGuidance == "Format: /fare pickup address to dropoff address") = false := by
  refine ⟨by decide, by decide⟩

/-- C6 (amended): for every input whose trimmed text does not contain the
literal delimiter `" to "`, parsing yields MalformedCommand and the
handler replies ephemerally with exactly the guidance
"Format: \x60/fare pickup address to dropoff address\x60" — the format
string wrapped in backticks. -/
theorem malformed_guidance (token? : Option String) (clientId : String)
    (http : String → MapboxHttp) (raw : String)
    (h : containsToDelim (stripList raw.data) = false) :
    parseCommand (some raw) = .malformed ∧
    handle_fare token? clientId http (some raw) =
      .message .ephemeral "Format: `/fare pickup address to dropoff address`" := by
  have hnone : splitFirstAux sepToList (stripList raw.data) = none := by
    unfold containsToDelim at h
    exact Option.not_isSome_iff_eq_none.mp (by rw [h]; exact Bool.false_ne_true)
  have hm : parseCommand (some raw) = .malformed := by
    unfold parseCommand
    simp only [Option.getD_some, hnone]
  refine ⟨hm, ?_⟩
  unfold handle_fare handle_fare_core
  simp only [hm]
  rfl

/-- Witness for C6 at the input `"hello"`. -/
theorem malformed_guidance_wit :
    parseCommand (some "hello") = .malformed ∧
    handle_fare none "fare-bot" (fun _ => MapboxHttp.raises) (some "hello") =
      .message .ephemeral "Format: `/fare pickup address to dropoff address`" :=
  malformed_guidance none "fare-bot" (fun _ => MapboxHttp.raises) "hello" (by decide)

/-! ### Claim C3 -/

/-- Ordinary lookup failures make `geocode_with_mapbox` return `None`
without raising. -/
theorem isGeoFailure_ok_none (token? : Option String) (h : MapboxHttp)
    (hf : isGeoFailure token? h = true) :
    geocode_with_mapbox token? h = .ok none := by
  cases token? with
  | none => rfl
  | some t =>
    cases h with
    | raises => rfl
    | status ok body =>
      cases ok with
      | false => rfl
      | true =>
        cases body with
        | notJson => simp [isGeoFailure] at hf
        | json features? =>
          cases features? with
          | none => rfl
          | some fs =>
            cases fs with
            | nil => rfl
            | cons f fs' => simp [isGeoFailure] at hf

/-- C3: every ordinary geocoding failure (missing credential, network
error or timeout, non-success status, no results) makes
`geocode_with_mapbox` return the absence indicator `None` instead of
raising, and the successful links reply is still produced, address-only
for the affected endpoint. -/
theorem geocode_failures_degrade (token? : Option String) (clientId : String)
    (http : String → MapboxHttp) (txt : Option String) (p d : String)
    (hparse : parseCommand txt = .ok p d) :
    (∀ h, isGeoFailure token? h = true → geocode_with_mapbox token? h = .ok none) ∧
    (isGeoFailure token? (http p) = true →
      ∀ r, geocode_with_mapbox token? (http d) = .ok r →
        handle_fare token? clientId http txt =
          .blocksMsg .in_channel p d (make_uber_link clientId p d none r)
            (make_lyft_link p d none r)) ∧
    (isGeoFailure token? (http d) = true →
      ∀ r, geocode_with_mapbox token? (http p) = .ok r →
        handle_fare token? clientId http txt =
          .blocksMsg .in_channel p d (make_uber_link clientId p d r none)
            (make_lyft_link p d r none)) := by
  refine ⟨fun h => isGeoFailure_ok_none token? h, ?_, ?_⟩
  · intro hf r hd
    unfold handle_fare handle_fare_core
    simp only [hparse, isGeoFailure_ok_none token? (http p) hf, hd]
    rfl
  · intro hf r hp
    unfold handle_fare handle_fare_core
    simp only [hparse, hp, isGeoFailure_ok_none token? (http d) hf]
    rfl

/-- Witness for C3: every lookup raises, both links come out
address-only. -/
theorem geocode_failures_degrade_wit :
    handle_fare none "fare-bot" (fun _ => MapboxHttp.raises) (some "a to b") =
      .blocksMsg .in_channel "a" "b" (make_uber_link "fare-bot" "a" "b" none none)
        (make_lyft_link "a" "b" none none) :=
  (geocode_failures_degrade none "fare-bot" (fun _ => MapboxHttp.raises) (some "a to b")
    "a" "b" (by decide)).2.1 (by decide) none rfl

/-! ### Claim C4 -/

/-- C4: a success status whose body is not JSON, or whose first feature
has a missing or non-two-element `center`, makes `geocode_with_mapbox`
raise (not return `None`), and the handler's outer catch then sends the
generic apology. -/
theorem geocode_bad_body_raises (token? : Option String) (t clientId : String)
    (http : String → MapboxHttp) (txt : Option String) (p d : String)
    (hparse : parseCommand txt = .ok p d) :
    geocode_with_mapbox (some t) (.status true .notJson) = .error () ∧
    (∀ fs, geocode_with_mapbox (some t) (.status true (.json (some (⟨none⟩ :: fs)))) =
      .error ()) ∧
    (∀ c fs, decide (c.length = 2) = false →
      geocode_with_mapbox (some t) (.status true (.json (some (⟨some c⟩ :: fs)))) =
        .error ()) ∧
    (geocode_with_mapbox token? (http p) = .error () →
      handle_fare token? clientId http txt = .message .ephemeral apology) ∧
    (∀ r, geocode_with_mapbox token? (http p) = .ok r →
      geocode_with_mapbox token? (http d) = .error () →
      handle_fare token? clientId http txt = .message .ephemeral apology) := by
  refine ⟨rfl, fun fs => rfl, ?_, ?_, ?_⟩
  · intro c fs hlen
    cases c with
    | nil => rfl
    | cons x c1 =>
      cases c1 with
      | nil => rfl
      | cons y c2 =>
        cases c2 with
        | nil => simp at hlen
        | cons z c3 => rfl
  · intro herr
    unfold handle_fare handle_fare_core
    simp only [hparse, herr]
    rfl
  · intro r hok herr
    unfold handle_fare handle_fare_core
    simp only [hparse, hok, herr]
    rfl

/-- Witness for C4: a non-JSON body on a success status yields the
apology reply. -/
theorem geocode_bad_body_raises_wit :
    geocode_with_mapbox (some "pk") (.status true .notJson) = .error () ∧
    handle_fare (some "pk") "fare-bot" (fun _ => MapboxHttp.status true MapboxBody.notJson)
      (some "a to b") = .message .ephemeral apology := by
  have h := geocode_bad_body_raises (some "pk") "pk" "fare-bot"
    (fun _ => MapboxHttp.status true MapboxBody.notJson) (some "a to b") "a" "b" (by decide)
  exact ⟨h.1, h.2.2.2.1 rfl⟩

/-! ### Claim C10 -/

/-- C10: every plain-text reply (malformed-command guidance,
missing-endpoint guidance, apology) is ephemeral, and the successful
links reply is broadcast in-channel. -/
theorem reply_visibility (token? : Option String) (clientId : String)
    (http : String → MapboxHttp) (txt : Option String) :
    (∀ rt s, handle_fare token? clientId http txt = .message rt s →
      rt = .ephemeral ∧ (s = fmtGuidance ∨ s = missingGuidance ∨ s = apology)) ∧
    (∀ rt p d u l, handle_fare token? clientId http txt = .blocksMsg rt p d u l →
      rt = .in_channel) := by
  rcases handle_fare_cases token? clientId http txt with
    ⟨_, hr⟩ | ⟨p0, d0, _, hr, _⟩ | ⟨p0, d0, pc, dc, _, _, _, hr⟩
  · refine ⟨fun rt s hes => ?_, fun rt p d u l hbs => ?_⟩
    · rw [hr] at hes
      injection hes with h1 h2
      exact ⟨h1.symm, Or.inl h2.symm⟩
    · rw [hr] at hbs
      exact Reply.noConfusion hbs
  · refine ⟨fun rt s hes => ?_, fun rt p d u l hbs => ?_⟩
    · rw [hr] at hes
      injection hes with h1 h2
      exact ⟨h1.symm, Or.inr (Or.inr h2.symm)⟩
    · rw [hr] at hbs
      exact Reply.noConfusion hbs
  · refine ⟨fun rt s hes => ?_, fun rt p d u l hbs => ?_⟩
    · rw [hr] at hes
      exact Reply.noConfusion hes
    · rw [hr] at hbs
      injection hbs with h1 h2 h3 h4 h5
      exact h1.symm

/-- Witness for C10 at concrete error and success inputs. -/
theorem reply_visibility_wit :
    (ReplyType.ephemeral = ReplyType.ephemeral ∧
      (fmtGuidance = fmtGuidance ∨ fmtGuidance = missingGuidance ∨ fmtGuidance = apology)) ∧
    ReplyType.in_channel = ReplyType.in_channel :=
  ⟨(reply_visibility none "fare-bot" (fun _ => MapboxHttp.raises) (some "hi")).1
      .ephemeral fmtGuidance (by decide),
   (reply_visibility none "fare-bot" (fun _ => MapboxHttp.raises) (some "a to b")).2
      .in_channel "a" "b" (make_uber_link "fare-bot" "a" "b" none none)
      (make_lyft_link "a" "b" none none) (by decide)⟩

/-! ### Claim C7 -/

/-- C7: with coordinates resolved for both endpoints, the Uber link is
exactly the base `https://m.uber.com/ul/?` followed by the url-encoded
parameters action, client_id, pickup latitude/longitude/formatted_address,
dropoff latitude/longitude/formatted_address in that order, and the Lyft
link is exactly `lyft://ridetype?` followed by id, pickup
latitude/longitude/address, destination latitude/longitude/address in
that order. -/
theorem deep_link_format (clientId p d : String) (pc dc : Coords) :
    make_uber_link clientId p d (some pc) (some dc) =
      "https://m.uber.com/ul/?" ++ urlencode
        [("action", "setPickup"), ("client_id", clientId),
         ("pickup[latitude]", pc.lat), ("pickup[longitude]", pc.lng),
         ("pickup[formatted_address]", p),
         ("dropoff[latitude]", dc.lat), ("dropoff[longitude]", dc.lng),
         ("dropoff[formatted_address]", d)] ∧
    make_lyft_link p d (some pc) (some dc) =
      "lyft://ridetype?" ++ urlencode
        [("id", "lyft"),
         ("pickup[latitude]", pc.lat), ("pickup[longitude]", pc.lng),
         ("pickup[address]", p),
         ("destination[latitude]", dc.lat), ("destination[longitude]", dc.lng),
         ("destination[address]", d)] :=
  ⟨rfl, rfl⟩

/-! ### Claim C8 -/

/-- C8: pickup and dropoff degrade independently: with coordinates for
the pickup only, both links carry latitude/longitude parameters for the
pickup and only the address parameter for the dropoff; with no
coordinates at all, both links carry the two addresses and no
latitude/longitude parameter. -/
theorem endpoint_degradation_independent (clientId p d : String) (pc : Coords) :
    (uberParams clientId p d (some pc) none).map Prod.fst =
      ["action", "client_id", "pickup[latitude]", "pickup[longitude]",
       "pickup[formatted_address]", "dropoff[formatted_address]"] ∧
    (lyftParams p d (some pc) none).map Prod.fst =
      ["id", "pickup[latitude]", "pickup[longitude]", "pickup[address]",
       "destination[address]"] ∧
    make_uber_link clientId p d (some pc) none =
      "https://m.uber.com/ul/?" ++ urlencode
        [("action", "setPickup"), ("client_id", clientId),
         ("pickup[latitude]", pc.lat), ("pickup[longitude]", pc.lng),
         ("pickup[formatted_address]", p), ("dropoff[formatted_address]", d)] ∧
    make_lyft_link p d (some pc) none =
      "lyft://ridetype?" ++ urlencode
        [("id", "lyft"), ("pickup[latitude]", pc.lat), ("pickup[longitude]", pc.lng),
         ("pickup[address]", p), ("destination[address]", d)] ∧
    make_uber_link clientId p d none none =
      "https://m.uber.com/ul/?" ++ urlencode
        [("action", "setPickup"), ("client_id", clientId),
         ("pickup[formatted_address]", p), ("dropoff[formatted_address]", d)] ∧
    make_lyft_link p d none none =
      "lyft://ridetype?" ++ urlencode
        [("id", "lyft"), ("pickup[address]", p), ("destination[address]", d)] :=
  ⟨rfl, rfl, rfl, rfl, rfl, rfl⟩

/-! ### Claim C9: percent-encoding round trip -/

theorem char_toNat_lt (c : Char) : c.toNat < 1114112 := by
  rcases c.valid with h | ⟨_, h⟩
  · exact Nat.lt_trans h (by norm_num)
  · exact h

theorem utf8Bytes_lt (c : Char) : ∀ b ∈ utf8Bytes c, b < 256 := by
  intro b hb
  have hc := char_toNat_lt c
  unfold utf8Bytes at hb
  by_cases h1 : c.toNat < 128
  · simp [h1] at hb; omega
  · by_cases h2 : c.toNat < 2048
    · simp [h1, h2] at hb
      rcases hb with rfl | rfl <;> omega
    · by_cases h3 : c.toNat < 65536
      · simp [h1, h2, h3] at hb
        rcases hb with rfl | rfl | rfl <;> omega
      · simp [h1, h2, h3] at hb
        rcases hb with rfl | rfl | rfl | rfl <;> omega

theorem hexVal_hexDigit : ∀ n, n < 16 → hexVal (hexDigit n) = some n := by decide

theorem unquote_pct (b : Nat) (hb : b < 256) (rest : List Char) :
    unquoteBytes (pctByte b ++ rest) = b :: unquoteBytes rest := by
  have e1 := hexVal_hexDigit (b / 16) (by omega)
  have e2 := hexVal_hexDigit (b % 16) (by omega)
  have hval : 16 * (b / 16) + b % 16 = b := by omega
  show unquoteBytes ('%' :: hexDigit (b / 16) :: hexDigit (b % 16) :: rest) = _
  rw [unquoteBytes.eq_def]
  simp only [e1, e2]
  rw [if_neg (by decide), if_pos trivial, hval]

theorem unquote_pct_all (bs : List Nat) (hbs : ∀ b ∈ bs, b < 256) (rest : List Char) :
    unquoteBytes ((bs.map pctByte).flatten ++ rest) = bs ++ unquoteBytes rest := by
  induction bs with
  | nil => simp
  | cons b bs' ih =>
    rw [List.map_cons, List.flatten_cons, List.append_assoc,
      unquote_pct b (hbs b (List.mem_cons_self b bs')),
      ih (fun x hx => hbs x (List.mem_cons_of_mem b hx))]
    rfl

theorem unquote_quotePlusChar (c : Char) (rest : List Char) :
    unquoteBytes (quotePlusChar c ++ rest) = utf8Bytes c ++ unquoteBytes rest := by
  unfold quotePlusChar
  by_cases hs : alwaysSafe c
  · rw [if_pos hs]
    have hplus : ¬(c = '+') := fun h => by subst h; exact absurd hs (by decide)
    have hpct : ¬(c = '%') := fun h => by subst h; exact absurd hs (by decide)
    show unquoteBytes (c :: rest) = _
    cases rest with
    | nil =>
      rw [unquoteBytes.eq_def]
      simp only []
      rw [if_neg hplus]
    | cons h1 t1 =>
      cases t1 with
      | nil =>
        rw [unquoteBytes.eq_def]
        simp only []
        rw [if_neg hplus]
      | cons h2 t2 =>
        rw [unquoteBytes.eq_def]
        simp only []
        rw [if_neg hplus, if_neg hpct]
  · rw [if_neg hs]
    by_cases hsp : c = ' '
    · subst hsp
      rw [if_pos rfl]
      show unquoteBytes ('+' :: rest) = utf8Bytes ' ' ++ unquoteBytes rest
      have h32 : utf8Bytes ' ' = [32] := rfl
      rw [h32]
      cases rest with
      | nil => rw [unquoteBytes.eq_def]; simp
      | cons h1 t1 =>
        cases t1 with
        | nil => rw [unquoteBytes.eq_def]; simp
        | cons h2 t2 => rw [unquoteBytes.eq_def]; simp
    · rw [if_neg hsp]
      exact unquote_pct_all (utf8Bytes c) (utf8Bytes_lt c) rest

theorem unquote_quotePlus_data (l : List Char) :
    unquoteBytes ((l.map quotePlusChar).flatten) = (l.map utf8Bytes).flatten := by
  induction l with
  | nil => rfl
  | cons c l' ih =>
    rw [List.map_cons, List.flatten_cons, unquote_quotePlusChar c _, ih,
      List.map_cons, List.flatten_cons]

theorem utf8Decode_encode (c : Char) (bs : List Nat) :
    utf8Decode (utf8Bytes c ++ bs) = c :: utf8Decode bs := by
  have hlt := char_toNat_lt c
  unfold utf8Bytes
  by_cases h1 : c.toNat < 128
  · rw [if_pos h1]
    show utf8Decode (c.toNat :: bs) = _
    rw [utf8Decode]
    have hstep : utf8DecodeStep c.toNat bs = (Char.ofNat c.toNat, bs) := by
      unfold utf8DecodeStep
      rw [if_pos h1]
    rw [hstep, Char.ofNat_toNat]
  · rw [if_neg h1]
    by_cases h2 : c.toNat < 2048
    · rw [if_pos h2]
      show utf8Decode ((192 + c.toNat / 64) :: (128 + c.toNat % 64) :: bs) = _
      rw [utf8Decode]
      have hstep : utf8DecodeStep (192 + c.toNat / 64) ((128 + c.toNat % 64) :: bs) =
          (Char.ofNat ((192 + c.toNat / 64 - 192) * 64 + (128 + c.toNat % 64 - 128)), bs) := by
        unfold utf8DecodeStep
        rw [if_neg (by omega), if_pos (by omega)]
      rw [hstep]
      have hval : (192 + c.toNat / 64 - 192) * 64 + (128 + c.toNat % 64 - 128) = c.toNat := by
        omega
      rw [hval, Char.ofNat_toNat]
    · rw [if_neg h2]
      by_cases h3 : c.toNat < 65536
      · rw [if_pos h3]
        show utf8Decode
          ((224 + c.toNat / 4096) :: (128 + c.toNat / 64 % 64) :: (128 + c.toNat % 64) :: bs)
            = _
        rw [utf8Decode]
        have hstep : utf8DecodeStep (224 + c.toNat / 4096)
            ((128 + c.toNat / 64 % 64) :: (128 + c.toNat % 64) :: bs) =
            (Char.ofNat ((224 + c.toNat / 4096 - 224) * 4096
              + (128 + c.toNat / 64 % 64 - 128) * 64 + (128 + c.toNat % 64 - 128)), bs) := by
          unfold utf8DecodeStep
          rw [if_neg (by omega), if_neg (by omega), if_pos (by omega)]
        rw [hstep]
        have hval : (224 + c.toNat / 4096 - 224) * 4096 + (128 + c.toNat / 64 % 64 - 128) * 64
            + (128 + c.toNat % 64 - 128) = c.toNat := by omega
        rw [hval, Char.ofNat_toNat]
      · rw [if_neg h3]
        show utf8Decode ((240 + c.toNat / 262144) :: (128 + c.toNat / 4096 % 64) ::
          (128 + c.toNat / 64 % 64) :: (128 + c.toNat % 64) :: bs) = _
        rw [utf8Decode]
        have hstep : utf8DecodeStep (240 + c.toNat / 262144)
            ((128 + c.toNat / 4096 % 64) :: (128 + c.toNat / 64 % 64)
              :: (128 + c.toNat % 64) :: bs) =
            (Char.ofNat ((240 + c.toNat / 262144 - 240) * 262144
              + (128 + c.toNat / 4096 % 64 - 128) * 4096
              + (128 + c.toNat / 64 % 64 - 128) * 64 + (128 + c.toNat % 64 - 128)), bs) := by
          unfold utf8DecodeStep
          rw [if_neg (by omega), if_neg (by omega), if_neg (by omega)]
        rw [hstep]
        have hval : (240 + c.toNat / 262144 - 240) * 262144
            + (128 + c.toNat / 4096 % 64 - 128) * 4096
            + (128 + c.toNat / 64 % 64 - 128) * 64 + (128 + c.toNat % 64 - 128) = c.toNat := by
          omega
        rw [hval, Char.ofNat_toNat]

theorem utf8Decode_flatten (l : List Char) :
    utf8Decode ((l.map utf8Bytes).flatten) = l := by
  induction l with
  | nil => rw [List.map_nil, List.flatten_nil, utf8Decode]
  | cons c l' ih => rw [List.map_cons, List.flatten_cons, utf8Decode_encode, ih]

/-- Percent-decoding is a left inverse of the percent-encoding used in
the deep links. -/
theorem unquotePlus_quotePlus (s : String) : unquotePlus (quotePlus s) = s := by
  obtain ⟨data⟩ := s
  show String.mk (utf8Decode (unquoteBytes ((data.map quotePlusChar).flatten)))
    = String.mk data
  rw [unquote_quotePlus_data, utf8Decode_flatten]

/-- C9: percent-decoding the encoded address value of each produced deep
link recovers the original address text exactly; indeed decoding inverts
the encoding for every parameter value of both links. -/
theorem address_roundtrip (clientId p d : String) (pc dc : Option Coords) :
    unquotePlus (quotePlus p) = p ∧ unquotePlus (quotePlus d) = d ∧
    ∀ kv ∈ uberParams clientId p d pc dc ++ lyftParams p d pc dc,
      unquotePlus (quotePlus kv.2) = kv.2 :=
  ⟨unquotePlus_quotePlus p, unquotePlus_quotePlus d,
   fun kv _ => unquotePlus_quotePlus kv.2⟩

/-- Witness for C9 at the spec's example pickup address. -/
theorem address_roundtrip_wit :
    unquotePlus (quotePlus "45 2nd St San Francisco") = "45 2nd St San Francisco" ∧
    ("pickup[formatted_address]", "45 2nd St San Francisco") ∈
      uberParams "fare-bot" "45 2nd St San Francisco" "SFO" none none ++
        lyftParams "45 2nd St San Francisco" "SFO" none none ∧
    unquotePlus (quotePlus ("pickup[formatted_address]", "45 2nd St San Francisco").2) =
      "45 2nd St San Francisco" := by
  have h := address_roundtrip "fare-bot" "45 2nd St San Francisco" "SFO" none none
  exact ⟨h.1, by decide, h.2.2 _ (by decide)⟩

end FareBot
